import Mathlib

/-!
# Verification of the virtual-table module bridge examples

A shallow embedding of the virtual-table providers shipped with the
repository (the CSV table, the echo/match/regexp demo tables and the test
modules in `module_test.go`), together with the parts of the bridge
dispatcher contract that the test suite pins down.

Go `int64`/`int` values are modelled as `Int`, Go slices as `List`,
Go `error` results as `Except String`, and the engine's dynamically typed
scalar (`vtab.Value`, a `driver.Value`) as the tagged union `Value` below.
-/

/-- The scalar value crossing the bridge boundary (`vtab.Value`, i.e. a
`database/sql/driver.Value`): null, 64-bit integer, double, text or blob.
A double is carried by its Go `%v` rendering, which is the only way the
providers in this repository ever consume it (`fmt.Sprint`). -/
inductive Value where
  | vnull : Value
  | vint (i : Int) : Value
  | vreal (render : String) : Value
  | vtext (s : String) : Value
  | vblob (bs : List Nat) : Value
deriving DecidableEq, Repr

/-- Go `fmt.Sprint` on a single `driver.Value`, as used by the CSV provider:
`nil` prints as `<nil>`, an `int64` in decimal, a `string` verbatim, a
`[]byte` as a bracketed space-separated byte list. -/
def goSprint : Value → String
  | .vnull => "<nil>"
  | .vint i => toString i
  | .vreal r => r
  | .vtext s => s
  | .vblob bs => "[" ++ String.intercalate " " (bs.map toString) ++ "]"

/-- Go type assertion `v.(string)` with the zero value on failure, as in
`val, _ := cols[0].(string)`. -/
def goAssertString : Value → String
  | .vtext s => s
  | _ => ""

/-- One decimal digit. -/
def isDigit (c : Char) : Bool := '0' ≤ c ∧ c ≤ '9'

/-- Digit-string to natural number, most significant first. -/
def digitsToNat (cs : List Char) : Nat :=
  cs.foldl (fun acc c => acc * 10 + (c.toNat - '0'.toNat)) 0

/-- Go `strconv.Atoi`: optional sign followed by at least one digit, the
result fitting a 64-bit `int`; `none` models a non-nil error. -/
def goAtoi (s : String) : Option Int :=
  let cs := s.data
  let (neg, ds) :=
    match cs with
    | '-' :: rest => (true, rest)
    | '+' :: rest => (false, rest)
    | rest => (false, rest)
  if ds = [] ∨ ¬ ds.all isDigit then none
  else
    let n : Int := digitsToNat ds
    let v := if neg then -n else n
    if v < -(2 ^ 63) ∨ v > 2 ^ 63 - 1 then none else some v

/-- `needle` occurs as a contiguous substring of `hay`
(Go `strings.Contains`). -/
def containsSubstr (hay needle : String) : Prop :=
  needle.data <:+: hay.data

instance (hay needle : String) : Decidable (containsSubstr hay needle) := by
  unfold containsSubstr; infer_instance

deriving instance DecidableEq for Except

/-! ## The in-memory updater table of the test suite (`updaterTableX`) -/

/-- A row of `updaterTableX`: rowid and single text column. -/
structure UpdRow where
  id : Int
  val : String
deriving DecidableEq, Repr

/-- `updaterTableX`: in-memory rows plus the next auto-assigned rowid.
`Create` initializes it with `rows = nil, nextID = 1`. -/
structure UpdaterTableX where
  rows : List UpdRow
  nextID : Int
deriving DecidableEq, Repr

/-- The freshly created `updaterTableX`. -/
def updCreate : UpdaterTableX := { rows := [], nextID := 1 }

/-- `updaterTableX.Insert`: `cols[0]` (a panic, modelled as an error, when
`cols` is empty) becomes the row value; rowid `0` is the unset sentinel and
is replaced by `nextID`; `nextID` is then set to the used id plus one.
Returns the updated table and the rowid written back through the output
pointer. -/
def updInsert (cols : List Value) (rowid : Int) (t : UpdaterTableX) :
    Except String (UpdaterTableX × Int) :=
  match cols with
  | [] => .error "runtime error: index out of range [0] with length 0"
  | v :: _ =>
    let id := if rowid = 0 then t.nextID else rowid
    .ok ({ rows := t.rows ++ [{ id := id, val := goAssertString v }],
           nextID := id + 1 }, id)

/-- Loop body of `updaterTableX.Update`: scan for the first row whose id is
`oldRowid`, replace its value, and move its id to `newRowid` when that is
non-nil, non-zero and different from `oldRowid`. -/
def updUpdateRows (oldRowid : Int) (v : Value) (newRowid : Option Int) :
    List UpdRow → Option (List UpdRow)
  | [] => none
  | r :: rest =>
    if r.id = oldRowid then
      let nid :=
        match newRowid with
        | some m => if m ≠ 0 ∧ m ≠ oldRowid then m else oldRowid
        | none => oldRowid
      some ({ id := nid, val := goAssertString v } :: rest)
    else
      (updUpdateRows oldRowid v newRowid rest).map (r :: ·)

/-- `updaterTableX.Update`: first-match replacement, `row %d not found`
when no row carries `oldRowid`. -/
def updUpdate (oldRowid : Int) (cols : List Value) (newRowid : Option Int)
    (t : UpdaterTableX) : Except String UpdaterTableX :=
  match cols with
  | [] => .error "runtime error: index out of range [0] with length 0"
  | v :: _ =>
    match updUpdateRows oldRowid v newRowid t.rows with
    | some rows => .ok { t with rows := rows }
    | none => .error ("row " ++ toString oldRowid ++ " not found")

/-- Loop body of `updaterTableX.Delete`: remove the first row whose id is
`oldRowid`. -/
def updDeleteRows (oldRowid : Int) : List UpdRow → Option (List UpdRow)
  | [] => none
  | r :: rest =>
    if r.id = oldRowid then some rest
    else (updDeleteRows oldRowid rest).map (r :: ·)

/-- `updaterTableX.Delete`: first-match removal, `row %d not found` when
absent. -/
def updDelete (oldRowid : Int) (t : UpdaterTableX) :
    Except String UpdaterTableX :=
  match updDeleteRows oldRowid t.rows with
  | some rows => .ok { t with rows := rows }
  | none => .error ("row " ++ toString oldRowid ++ " not found")

/-! ### Mutation traces over `updaterTableX` (claims C5, C10) -/

/-- One mutating statement against `updaterTableX`: an INSERT carrying the
rowid passed through the output pointer (`0` is the unset sentinel) or a
DELETE of a rowid. -/
inductive UpdOp where
  | ins (cols : List Value) (rowid : Int) : UpdOp
  | del (rowid : Int) : UpdOp

/-- Run a mutation trace from a table state, collecting the rowid assigned
by each sentinel (rowid-`0`) insert, in chronological order. -/
def updRun (t : UpdaterTableX) (assigned : List Int) :
    List UpdOp → Except String (UpdaterTableX × List Int)
  | [] => .ok (t, assigned)
  | .ins cols rowid :: ops =>
    match updInsert cols rowid t with
    | .error e => .error e
    | .ok (t1, id) =>
      updRun t1 (assigned ++ if rowid = 0 then [id] else []) ops
  | .del rowid :: ops =>
    match updDelete rowid t with
    | .error e => .error e
    | .ok t1 => updRun t1 assigned ops

/-! ## The planning protocol: constraints, IndexInfo, dispatcher

The `vtab` package itself (the bridge dispatcher and the `Constraint` /
`IndexInfo` records) is not part of the sources at hand; only its callers,
tests and example providers are.  The records and the dispatcher steps
below are therefore modelled from the specification, pinned down where
possible by the repository's own tests. -/

/-- The stable constraint operator codes (`vtab.ConstraintOp`). -/
inductive ConstraintOp where
  | opEQ | opGT | opLE | opLT | opGE
  | opMATCH | opLIKE | opGLOB | opREGEXP
  | opISNULL | opISNOTNULL | opIS | opNE
deriving DecidableEq, Repr

/-- Modelled from the spec: one candidate predicate handed to `BestIndex`
(`vtab.Constraint`).  `argIndex` is the provider-written output slot: an
unset field means "not requested", an assigned `some k` is the 0-based
position of this constraint's comparison value in the vector delivered to
`Filter` — the repository's own test (`TestVtabConstraintArgIndex`)
asserts that assigning slots `0` and `1` delivers both values, in order. -/
structure Constraint where
  column : Int
  op : ConstraintOp
  usable : Bool
  argIndex : Option Nat := none
  Omit : Bool := false
deriving DecidableEq, Repr

/-- Modelled from the spec: the draft plan description handed to
`BestIndex` and mutated in place by the provider (`vtab.IndexInfo`),
restricted to the fields the providers at hand use. -/
structure IndexInfo where
  constraints : List Constraint
  colUsed : Nat := 0
  idxNum : Int := 0
  idxStr : String := ""
deriving DecidableEq, Repr

/-- Modelled from the spec: the bridge dispatcher's width guard on the
plan tag — `IdxNum` must fit a signed 32-bit integer, and an out-of-range
value is rejected with an error naming the offending value, the `IdxNum`
field and the expected type `int32`, before anything reaches the engine
(the error text's two required tokens are pinned by
`TestVtabIdxNumOverflowError`). -/
def checkIdxNum (n : Int) : Except String Int :=
  if n < -(2 ^ 31) ∨ n > 2 ^ 31 - 1 then
    .error ("vtab: BestIndex set IdxNum to " ++ toString n ++
      ", which does not fit into an int32")
  else .ok n

/-- Modelled from the spec: the dispatcher runs the provider's `BestIndex`
on the draft `IndexInfo` and validates the resulting plan tag before
delivering the plan. -/
def dispatchBestIndex (bestIndex : IndexInfo → IndexInfo)
    (info : IndexInfo) : Except String IndexInfo :=
  let out := bestIndex info
  (checkIdxNum out.idxNum).map (fun _ => out)

/-- Modelled from the spec: the (slot, value) pairs of the constraints
whose `argIndex` the provider assigned, `rhs` being the engine-known
comparison value of each constraint, aligned with the constraint list. -/
def assignedSlots (cs : List Constraint) (rhs : List Value) :
    List (Nat × Value) :=
  (cs.zip rhs).filterMap (fun p => p.1.argIndex.map (fun k => (k, p.2)))

/-- Modelled from the spec: the argument vector delivered to `Filter` —
one value per assigned slot, ordered by slot. -/
def buildArgv (cs : List Constraint) (rhs : List Value) : List Value :=
  (List.range (assignedSlots cs rhs).length).filterMap
    (fun k => ((assignedSlots cs rhs).find? (fun p => p.1 = k)).map Prod.snd)

/-- Modelled from the spec: the query pipeline from planning to the
`Filter` call — `Filter` receives exactly the `IdxNum`/`IdxStr` the
validated plan carries and the argument vector built from the assigned
slots. -/
def runPlan {σ : Type} (bestIndex : IndexInfo → IndexInfo)
    (filter : Int → String → List Value → σ)
    (info : IndexInfo) (rhs : List Value) : Except String σ :=
  (dispatchBestIndex bestIndex info).map
    (fun out => filter out.idxNum out.idxStr (buildArgv out.constraints rhs))

/-- `overflowIdxTable.BestIndex`: forces `IdxNum` to
`math.MaxInt32 + 1 = 2^31` to trigger the trampoline guard. -/
def overflowIdxBestIndex (info : IndexInfo) : IndexInfo :=
  { info with idxNum := 2147483648 }

/-- Loop of `argIndexTable.BestIndex`: assign `ArgIndex` sequentially
(0-based) to every usable EQ constraint. -/
def argIndexAssign (next : Nat) : List Constraint → List Constraint
  | [] => []
  | c :: rest =>
    if c.usable ∧ c.op = .opEQ then
      { c with argIndex := some next } :: argIndexAssign (next + 1) rest
    else
      c :: argIndexAssign next rest

/-- `argIndexTable.BestIndex`. -/
def argIndexBestIndex (info : IndexInfo) : IndexInfo :=
  { info with constraints := argIndexAssign 0 info.constraints }

/-- `argIndexCursor` state: the row window, the position, and the argument
vector captured by `Filter` (the test keeps it in a package-level
variable). -/
structure ArgIndexCursor where
  rows : List Int
  pos : Nat
  captured : List Value
deriving DecidableEq, Repr

/-- `argIndexCursor.Filter`: capture the values passed by the engine and
expose a single dummy row. -/
def argIndexFilter (idxNum : Int) (idxStr : String) (vals : List Value) :
    ArgIndexCursor :=
  let _ := idxNum
  let _ := idxStr
  { rows := [1], pos := 0, captured := vals }

/-! ## The CSV provider (`csvModule` / `csvTable` / `csvCursor`)

The embedding fixes the module configuration at its defaults
(`delimiter=','`, `quote='"'`); the file contents written by `flush` are
modelled by the pure function `flushContent` below. -/

/-- `csvTable`: declared column names (from the header), the row window,
the next auto-assigned rowid, and whether the backing file carries a
header line. -/
structure CsvTable where
  cols : List String
  rows : List (List String)
  nextID : Int
  header : Bool
deriving DecidableEq, Repr

/-- `csvCursor`: the owning table, a copied row window, and the position. -/
structure CsvCursor where
  t : CsvTable
  rows : List (List String)
  pos : Nat
deriving DecidableEq, Repr

/-- `valuesToStrings`: render `n` column values to CSV cells — absent or
nil values become the empty string, anything else its `fmt.Sprint`. -/
def valuesToStrings (vals : List Value) (n : Nat) : List String :=
  (List.range n).map (fun i =>
    match vals.get? i with
    | some v => if v = .vnull then "" else goSprint v
    | none => "")

/-- Loop of `csvTable.BestIndex`: find the first usable EQ constraint on a
declared column; mark it `ArgIndex=0, Omit=true` and return the rewritten
constraint list together with that column. -/
def csvBestIndexLoop (ncols : Nat) : List Constraint →
    Option (List Constraint × Int)
  | [] => none
  | c :: rest =>
    if c.usable ∧ c.op = .opEQ ∧ 0 ≤ c.column ∧ c.column < (ncols : Int) then
      some ({ c with argIndex := some 0, Omit := true } :: rest, c.column)
    else
      (csvBestIndexLoop ncols rest).map (fun p => (c :: p.1, p.2))

/-- `csvTable.BestIndex`: plan `IdxNum=1` with `IdxStr` carrying the
equality column when a usable EQ constraint exists, otherwise the full
scan plan `IdxNum=0`. -/
def csvBestIndex (t : CsvTable) (info : IndexInfo) : IndexInfo :=
  match csvBestIndexLoop t.cols.length info.constraints with
  | some (cs, col) =>
    { info with constraints := cs, idxNum := 1, idxStr := toString col }
  | none => { info with idxNum := 0 }

/-- `csvTable.Open`: a cursor over a copy of the table's rows. -/
def csvOpen (t : CsvTable) : CsvCursor := { t := t, rows := t.rows, pos := 0 }

/-- `csvCursor.Filter`: reset to the full row window; under plan
`IdxNum=1`, parse the column out of `idxStr` and keep only rows whose cell
equals `fmt.Sprint` of the first argument — silently skipping the
filtering when `idxStr` does not parse, is out of range, or no argument
was delivered. -/
def csvFilter (c : CsvCursor) (idxNum : Int) (idxStr : String)
    (vals : List Value) : CsvCursor :=
  let base : CsvCursor := { c with pos := 0, rows := c.t.rows }
  if idxNum = 1 then
    match goAtoi idxStr with
    | none => base
    | some col =>
      if col < 0 ∨ (c.t.cols.length : Int) ≤ col then base
      else
        match vals with
        | [] => base
        | v :: _ =>
          let target := goSprint v
          let filtered := c.t.rows.filter
            (fun r => decide (col.toNat < r.length ∧
              r.getD col.toNat "" = target))
          { base with rows := filtered }
  else base

/-- `csvCursor.Next`: advance while not past the last row. -/
def csvNext (c : CsvCursor) : CsvCursor :=
  if c.pos < c.rows.length then { c with pos := c.pos + 1 } else c

/-- `csvCursor.Eof`. -/
def csvEof (c : CsvCursor) : Bool := c.rows.length ≤ c.pos

/-- `csvCursor.Column`: nil (no error) when past the window or beyond the
declared columns, otherwise the current row's cell; indexing a row
narrower than the declared width is a Go panic, modelled as an error. -/
def csvColumn (c : CsvCursor) (col : Nat) : Except String Value :=
  if c.rows.length ≤ c.pos ∨ c.t.cols.length ≤ col then .ok .vnull
  else
    match (c.rows.getD c.pos []).get? col with
    | some s => .ok (.vtext s)
    | none => .error "runtime error: index out of range"

/-- `csvCursor.Rowid`: position plus one. -/
def csvRowid (c : CsvCursor) : Int := (c.pos : Int) + 1

/-- `csvTable.Insert`: append the rendered record; a zero rowid receives
`nextID` through the output pointer; `nextID` always advances by one. -/
def csvInsert (t : CsvTable) (cols : List Value) (rowid : Int) :
    CsvTable × Int :=
  let record := valuesToStrings cols t.cols.length
  let out := if rowid = 0 then t.nextID else rowid
  ({ t with rows := t.rows ++ [record], nextID := t.nextID + 1 }, out)

/-- `csvTable.Update`: rowids are positions plus one; out-of-range
`oldRowid` fails; the record at `oldRowid` is replaced, and a non-nil,
non-zero `newRowid` different from `oldRowid` swaps the updated record
with the record at `newRowid` when that position exists. -/
def csvUpdate (t : CsvTable) (oldRowid : Int) (cols : List Value)
    (newRowid : Option Int) : Except String CsvTable :=
  let idx := oldRowid - 1
  if idx < 0 ∨ (t.rows.length : Int) ≤ idx then
    .error ("csv: rowid " ++ toString oldRowid ++ " out of range")
  else
    let i := idx.toNat
    let record := valuesToStrings cols t.cols.length
    let rows1 := t.rows.set i record
    let swapped :=
      match newRowid with
      | some m =>
        if m ≠ 0 ∧ m ≠ oldRowid then
          let nidx := m - 1
          if 0 ≤ nidx ∧ nidx < (rows1.length : Int) then
            let j := nidx.toNat
            (rows1.set i (rows1.getD j [])).set j (rows1.getD i [])
          else rows1
        else rows1
      | none => rows1
    .ok { t with rows := swapped }

/-- `csvTable.Delete`: remove the record at position `oldRowid - 1`,
failing when out of range. -/
def csvDelete (t : CsvTable) (oldRowid : Int) : Except String CsvTable :=
  let idx := oldRowid - 1
  if idx < 0 ∨ (t.rows.length : Int) ≤ idx then
    .error ("csv: rowid " ++ toString oldRowid ++ " out of range")
  else
    .ok { t with rows := t.rows.eraseIdx idx.toNat }

/-! ## The demo and test cursors (`echoCursor`, `matchCursor`, `reCursor`,
`dummyCursor`) -/

/-- Go `strings.Contains`. -/
def goContains (hay needle : String) : Bool := decide (containsSubstr hay needle)

/-- Go `strings.ToLower`, on the ASCII range the demos use. -/
def goToLower (s : String) : String := ⟨s.data.map Char.toLower⟩

/-- `echoCursor`: row window and position. -/
structure EchoCursor where
  rows : List String
  pos : Nat
deriving DecidableEq, Repr

/-- The fixed dataset of `echoTable`. -/
def echoAll : List String := ["alpha", "beta", "alpine"]

/-- `echoTable.Open`. -/
def echoOpen : EchoCursor := { rows := echoAll, pos := 0 }

/-- `echoCursor.Filter`: plan 1 is equality on the single argument, plan 2
is LIKE restricted to a literal prefix pattern; anything else is a full
scan of the fixed dataset. -/
def echoFilter (idxNum : Int) (vals : List Value) : EchoCursor :=
  let rows :=
    if idxNum = 1 then
      match vals with
      | [v] => echoAll.filter (fun s => s = goAssertString v)
      | _ => echoAll
    else if idxNum = 2 then
      match vals with
      | [v] =>
        let pat := goAssertString v
        let prefix_ : String :=
          match pat.data.getLast? with
          | some '%' => ⟨pat.data.dropLast⟩
          | _ => pat
        echoAll.filter (fun s => decide (prefix_.data <+: s.data))
      | _ => echoAll
    else echoAll
  { rows := rows, pos := 0 }

/-- `echoCursor.Next`. -/
def echoNext (c : EchoCursor) : EchoCursor :=
  if c.pos < c.rows.length then { c with pos := c.pos + 1 } else c

/-- `echoCursor.Eof`. -/
def echoEof (c : EchoCursor) : Bool := c.rows.length ≤ c.pos

/-- `echoCursor.Column`: the current value for column 0 in bounds, nil (no
error) otherwise. -/
def echoColumn (c : EchoCursor) (col : Nat) : Except String Value :=
  if col = 0 ∧ c.pos < c.rows.length then .ok (.vtext (c.rows.getD c.pos ""))
  else .ok .vnull

/-- `matchCursor`: row window and position. -/
structure MatchCursor where
  rows : List String
  pos : Nat
deriving DecidableEq, Repr

/-- The fixed dataset of `matchTable`. -/
def matchAll : List String := ["alpha", "beta", "alpine", "match", "atlas"]

/-- `matchTable.Open`. -/
def matchOpen : MatchCursor := { rows := matchAll, pos := 0 }

/-- `matchCursor.Filter`: plan 20 with one argument keeps the rows whose
lowercase form contains the lowercase search term. -/
def matchFilter (idxNum : Int) (vals : List Value) : MatchCursor :=
  let rows :=
    if idxNum = 20 then
      match vals with
      | [v] =>
        let term := goToLower (goAssertString v)
        matchAll.filter (fun s => goContains (goToLower s) term)
      | _ => matchAll
    else matchAll
  { rows := rows, pos := 0 }

/-- `matchCursor.Next`. -/
def matchNext (c : MatchCursor) : MatchCursor :=
  if c.pos < c.rows.length then { c with pos := c.pos + 1 } else c

/-- `matchCursor.Eof`. -/
def matchEof (c : MatchCursor) : Bool := c.rows.length ≤ c.pos

/-- `matchCursor.Column`. -/
def matchColumn (c : MatchCursor) (col : Nat) : Except String Value :=
  if col = 0 ∧ c.pos < c.rows.length then .ok (.vtext (c.rows.getD c.pos ""))
  else .ok .vnull

/-- `reCursor`: row window and position. -/
structure ReCursor where
  rows : List String
  pos : Nat
deriving DecidableEq, Repr

/-- The fixed dataset of `reTable`. -/
def reAll : List String := ["alpha", "beta", "alpine", "regex"]

/-- `reTable.Open`. -/
def reOpen : ReCursor := { rows := reAll, pos := 0 }

/-- `reCursor.Filter`, parameterized by the external regexp engine
(`regexp.Compile`, which is Go standard library code): a failed compile
empties the window, a successful one keeps the matching rows. -/
def reFilter (compile : String → Option (String → Bool)) (idxNum : Int)
    (vals : List Value) : ReCursor :=
  let rows :=
    if idxNum = 10 then
      match vals with
      | [v] =>
        match compile (goAssertString v) with
        | none => []
        | some matches_ => reAll.filter (fun s => matches_ s)
      | _ => reAll
    else reAll
  { rows := rows, pos := 0 }

/-- `reCursor.Next`. -/
def reNext (c : ReCursor) : ReCursor :=
  if c.pos < c.rows.length then { c with pos := c.pos + 1 } else c

/-- `reCursor.Eof`. -/
def reEof (c : ReCursor) : Bool := c.rows.length ≤ c.pos

/-- `reCursor.Column`. -/
def reColumn (c : ReCursor) (col : Nat) : Except String Value :=
  if col = 0 ∧ c.pos < c.rows.length then .ok (.vtext (c.rows.getD c.pos ""))
  else .ok .vnull

/-- `dummyCursor`: fixed (rowid, val) rows and position. -/
structure DummyCursor where
  rows : List (Int × String)
  pos : Nat
deriving DecidableEq, Repr

/-- `dummyTable.Open`: the zero-valued cursor. -/
def dummyOpen : DummyCursor := { rows := [], pos := 0 }

/-- `dummyCursor.Filter`: plan 1 yields the expected two rows, any other
plan a sentinel row that would make the test fail. -/
def dummyFilter (idxNum : Int) : DummyCursor :=
  if idxNum = 1 then { rows := [(1, "alpha"), (2, "beta")], pos := 0 }
  else { rows := [(1, "unexpected")], pos := 0 }

/-- `dummyCursor.Next`. -/
def dummyNext (c : DummyCursor) : DummyCursor :=
  if c.pos < c.rows.length then { c with pos := c.pos + 1 } else c

/-- `dummyCursor.Eof`. -/
def dummyEof (c : DummyCursor) : Bool := c.rows.length ≤ c.pos

/-- `dummyCursor.Column`: the string value for column 0, nil (no error)
for other columns or out of position. -/
def dummyColumn (c : DummyCursor) (col : Nat) : Except String Value :=
  if c.rows.length ≤ c.pos then .ok .vnull
  else if col = 0 then .ok (.vtext (c.rows.getD c.pos (0, "")).2)
  else .ok .vnull

/-- `dummyCursor.Close`: clears the cursor state. -/
def dummyClose (c : DummyCursor) : DummyCursor :=
  let _ := c
  { rows := [], pos := 0 }

/-! ### Cursor call traces (claim C9) -/

/-- One engine call against an open cursor. -/
inductive CursorOp where
  | filt (idxNum : Int) (idxStr : String) (vals : List Value)
  | next
  | close

/-- `csvCursor` under one engine call (`Close` is a no-op on its state). -/
def csvStep (c : CsvCursor) : CursorOp → CsvCursor
  | .filt n s v => csvFilter c n s v
  | .next => csvNext c
  | .close => c

/-- `echoCursor` under one engine call. -/
def echoStep (c : EchoCursor) : CursorOp → EchoCursor
  | .filt n _ v => echoFilter n v
  | .next => echoNext c
  | .close => c

/-- `matchCursor` under one engine call. -/
def matchStep (c : MatchCursor) : CursorOp → MatchCursor
  | .filt n _ v => matchFilter n v
  | .next => matchNext c
  | .close => c

/-- `reCursor` under one engine call. -/
def reStep (compile : String → Option (String → Bool)) (c : ReCursor) :
    CursorOp → ReCursor
  | .filt n _ v => reFilter compile n v
  | .next => reNext c
  | .close => c

/-- `dummyCursor` under one engine call. -/
def dummyStep (c : DummyCursor) : CursorOp → DummyCursor
  | .filt n _ _ => dummyFilter n
  | .next => dummyNext c
  | .close => dummyClose c

/-! ## The CSV backing file: `flush` and `loadCSV`

`flush` serializes header and rows through Go's `encoding/csv` writer and
`loadCSV` reads them back through its reader; both are embedded here for
the default configuration (`Comma=','`, `quote='"'`, `UseCRLF=false`) at
the fragment the provider exercises: records are single lines (a quoted
field containing a line break is outside the modelled fragment). -/

/-- `unicode.IsSpace` on the Latin-1 range. -/
def goIsSpace (c : Char) : Bool :=
  c = ' ' ∨ c = '\t' ∨ c = '\n' ∨ c = (Char.ofNat 11) ∨ c = (Char.ofNat 12) ∨
  c = '\r' ∨ c = (Char.ofNat 133) ∨ c = (Char.ofNat 160)

/-- `encoding/csv` `fieldNeedsQuotes` for `Comma=','`: the empty field
needs none, `\.` always does, as do fields containing the comma, a quote
or a line break, and fields opening with white space. -/
def fieldNeedsQuotes (f : String) : Bool :=
  if f = "" then false
  else if f = "\\." then true
  else if f.data.any (fun c => c = ',' ∨ c = '"' ∨ c = '\r' ∨ c = '\n') then
    true
  else
    match f.data with
    | [] => false
    | c :: _ => goIsSpace c

/-- Double every quote, as the csv writer does inside a quoted field. -/
def escapeQuotes : List Char → List Char
  | [] => []
  | '"' :: rest => '"' :: '"' :: escapeQuotes rest
  | c :: rest => c :: escapeQuotes rest

/-- One encoded csv field. -/
def encodeField (f : String) : List Char :=
  if fieldNeedsQuotes f then '"' :: (escapeQuotes f.data ++ ['"']) else f.data

/-- One encoded csv record (no terminator). -/
def encodeRecord (r : List String) : List Char :=
  List.intercalate [','] (r.map encodeField)

/-- `csvTable.flush`: the bytes written back to the backing file — the
header line when the table carries one, then every row, each record
terminated by a bare line feed. -/
def flushContent (t : CsvTable) : List Char :=
  (if t.header then encodeRecord t.cols ++ ['\n'] else []) ++
    (t.rows.map (fun r => encodeRecord r ++ ['\n'])).flatten

/-- Split on a separator character; `n` separators yield `n + 1` pieces. -/
def splitOnChar (sep : Char) : List Char → List (List Char)
  | [] => [[]]
  | c :: rest =>
    let r := splitOnChar sep rest
    if c = sep then [] :: r
    else
      match r with
      | [] => [[c]]
      | h :: t => (c :: h) :: t

/-- State of the csv field scanner within one line. -/
inductive ParseMode where
  | startField
  | unquoted
  | quoted
  | afterQuote
deriving DecidableEq, Repr

/-- The csv reader's field scanner over one line (`LazyQuotes=false`): a
field may be quoted, quotes are doubled inside quoted fields, a bare
quote inside an unquoted field and a stray character after a closing
quote are errors, an unterminated quote at end of line is an error (in
the full reader it would continue onto the next line, which is outside
the modelled fragment). -/
def parseLineAux : List Char → ParseMode → List Char → List String →
    Except String (List String)
  | [], .startField, _, fields => .ok (fields ++ [""])
  | [], .unquoted, acc, fields => .ok (fields ++ [⟨acc⟩])
  | [], .quoted, _, _ => .error "csv: extraneous or missing \x22 in quoted-field"
  | [], .afterQuote, acc, fields => .ok (fields ++ [⟨acc⟩])
  | c :: rest, .startField, acc, fields =>
    if c = '"' then parseLineAux rest .quoted acc fields
    else if c = ',' then parseLineAux rest .startField [] (fields ++ [""])
    else parseLineAux rest .unquoted (acc ++ [c]) fields
  | c :: rest, .unquoted, acc, fields =>
    if c = ',' then parseLineAux rest .startField [] (fields ++ [⟨acc⟩])
    else if c = '"' then .error "csv: bare \x22 in non-quoted field"
    else parseLineAux rest .unquoted (acc ++ [c]) fields
  | c :: rest, .quoted, acc, fields =>
    if c = '"' then parseLineAux rest .afterQuote acc fields
    else parseLineAux rest .quoted (acc ++ [c]) fields
  | c :: rest, .afterQuote, acc, fields =>
    if c = '"' then parseLineAux rest .quoted (acc ++ ['"']) fields
    else if c = ',' then parseLineAux rest .startField [] (fields ++ [⟨acc⟩])
    else .error "csv: extraneous or missing \x22 in quoted-field"

/-- Parse one line into its fields. -/
def parseLine (cs : List Char) : Except String (List String) :=
  parseLineAux cs .startField [] []

/-- Strip the `\r` of a `\r\n` line ending. -/
def stripCR (cs : List Char) : List Char :=
  match cs.getLast? with
  | some '\r' => cs.dropLast
  | _ => cs

/-- The reader loop: parse each line in order, stopping at the first
error. -/
def parseRecords : List (List Char) → Except String (List (List String))
  | [] => .ok []
  | l :: ls =>
    match parseLine l with
    | .error e => .error e
    | .ok r =>
      match parseRecords ls with
      | .error e => .error e
      | .ok rs => .ok (r :: rs)

/-- The csv reader's `ReadAll` on the modelled fragment: split into lines,
skip blank lines, scan each line's fields (`FieldsPerRecord = -1`, so no
width check). -/
def csvParseRecords (content : List Char) :
    Except String (List (List String)) :=
  parseRecords (((splitOnChar '\n' content).map stripCR).filter (· ≠ []))

/-- Pad a record to `n` fields with empty cells, or truncate it to `n`, as
`loadCSV` normalizes every data row against the header width. -/
def padTrunc (r : List String) (n : Nat) : List String :=
  r.take n ++ List.replicate (n - r.length) ""

/-- `loadCSV` on file contents (default delimiter and quote): with a
header the first record declares the columns and the remaining records,
normalized to the header width, become rows; without one the columns are
synthesized as `c1..cn` from the first record's width.  In both cases the
next rowid restarts at the number of rows plus one. -/
def loadCSVContent (content : List Char) (header : Bool) :
    Except String CsvTable :=
  match csvParseRecords content with
  | .error e => .error e
  | .ok all =>
    if header then
      match all with
      | [] => .error "csv: read header: EOF"
      | hdr :: rows =>
        let rows2 := rows.map (fun r => padTrunc r hdr.length)
        .ok { cols := hdr, rows := rows2, nextID := (rows2.length : Int) + 1,
              header := true }
    else
      match all with
      | [] => .error "csv: empty file with header=false"
      | first :: _ =>
        let n := first.length
        let hdr := (List.range n).map (fun i => "c" ++ toString (i + 1))
        let rows2 := all.map (fun r => padTrunc r n)
        .ok { cols := hdr, rows := rows2, nextID := (rows2.length : Int) + 1,
              header := false }

/-! ## Claims C5 and C10: rowid allocation in `updaterTableX` -/

/-- An operation uses only the unset-rowid sentinel for inserts. -/
def sentinelOnly : UpdOp → Bool
  | .ins _ rowid => rowid = 0
  | .del _ => true

/-- Invariant of `updRun` under sentinel-only traces: the log of assigned
rowids stays strictly increasing and strictly below the table's `nextID`. -/
theorem updRun_sentinel_invariant (ops : List UpdOp) :
    ∀ (t : UpdaterTableX) (assigned : List Int) (t' : UpdaterTableX)
      (as' : List Int),
      (∀ op ∈ ops, sentinelOnly op = true) →
      assigned.Pairwise (· < ·) → (∀ a ∈ assigned, a < t.nextID) →
      updRun t assigned ops = .ok (t', as') →
      as'.Pairwise (· < ·) ∧ ∀ a ∈ as', a < t'.nextID := by
  induction ops with
  | nil =>
    intro t assigned t' as' _ h2 h3 hrun
    simp only [updRun] at hrun
    cases hrun
    exact ⟨h2, h3⟩
  | cons op ops ih =>
    intro t assigned t' as' hops h2 h3 hrun
    have hop : sentinelOnly op = true := hops op (by simp)
    have hops' : ∀ op ∈ ops, sentinelOnly op = true :=
      fun o ho => hops o (by simp [ho])
    cases op with
    | ins cols rowid =>
      have hr0 : rowid = 0 := by simpa [sentinelOnly] using hop
      subst hr0
      cases cols with
      | nil => simp [updRun, updInsert] at hrun
      | cons v rest =>
        simp only [updRun, updInsert, if_pos rfl, ite_true] at hrun
        refine ih _ _ _ _ hops' ?_ ?_ hrun
        · rw [List.pairwise_append]
          refine ⟨h2, by simp, ?_⟩
          intro a ha b hb
          simp only [List.mem_singleton] at hb
          subst hb
          exact h3 a ha
        · intro a ha
          simp only [List.mem_append, List.mem_singleton] at ha
          show _ < t.nextID + 1
          rcases ha with ha | ha
          · exact lt_trans (h3 a ha) (by omega)
          · omega
    | del rowid =>
      cases hdel : updDeleteRows rowid t.rows with
      | none => simp [updRun, updDelete, hdel] at hrun
      | some rows1 =>
        simp only [updRun, updDelete, hdel] at hrun
        refine ih _ _ _ _ hops' h2 ?_ hrun
        exact fun a ha => h3 a ha

/-- C5: over any sequence of sentinel-rowid inserts interleaved with
deletes against a freshly created `updaterTableX`, the automatically
assigned rowids are, in chronological order, strictly increasing — each
one strictly greater than every rowid assigned before, hence never
reused, even across deletes. -/
theorem sentinel_insert_rowids_strictly_increasing (ops : List UpdOp)
    (t' : UpdaterTableX) (as' : List Int)
    (hops : ∀ op ∈ ops, sentinelOnly op = true)
    (hrun : updRun updCreate [] ops = .ok (t', as')) :
    as'.Pairwise (· < ·) :=
  (updRun_sentinel_invariant ops updCreate [] t' as' hops (by simp)
    (by simp) hrun).1

/-- The insert-A-B-C, delete-B, insert-D scenario of C5. -/
def opsC5 : List UpdOp :=
  [.ins [.vtext "A"] 0, .ins [.vtext "B"] 0, .ins [.vtext "C"] 0,
   .del 2, .ins [.vtext "D"] 0]

/-- C5 witness: the scenario assigns rowids 1, 2, 3, 4 — after deleting
rowid 2 the next insert receives 4, not 2. -/
theorem sentinel_insert_rowids_strictly_increasing_witness :
    ([1, 2, 3, 4] : List Int).Pairwise (· < ·) :=
  sentinel_insert_rowids_strictly_increasing opsC5
    { rows := [{ id := 1, val := "A" }, { id := 3, val := "C" },
               { id := 4, val := "D" }], nextID := 5 }
    [1, 2, 3, 4] (by decide) rfl

/-- The two-sentinel, explicit-rowid-1, sentinel insert sequence of C10. -/
def opsC10 : List UpdOp :=
  [.ins [.vtext "A"] 0, .ins [.vtext "B"] 0, .ins [.vtext "C"] 1,
   .ins [.vtext "D"] 0]

/-- C10: an `updaterTableX.Insert` with a caller-supplied non-zero rowid
`r` unconditionally sets the next-rowid counter to `r + 1`, even when that
re-covers rowids already present; consequently, after two sentinel inserts
(rowids 1, 2), an insert with explicit rowid 1 and a final sentinel
insert, the table holds rowids `[1, 2, 1, 2]` — two pairs of distinct rows
sharing a rowid. -/
theorem insert_explicit_rowid_overwrites_nextID :
    (∀ (t : UpdaterTableX) (v : Value) (cols : List Value) (r : Int),
      r ≠ 0 →
      updInsert (v :: cols) r t =
        .ok ({ rows := t.rows ++ [{ id := r, val := goAssertString v }],
               nextID := r + 1 }, r)) ∧
    updRun updCreate [] opsC10 =
      .ok ({ rows := [{ id := 1, val := "A" }, { id := 2, val := "B" },
                      { id := 1, val := "C" }, { id := 2, val := "D" }],
             nextID := 3 }, [1, 2, 2]) ∧
    ¬ ([1, 2, 1, 2] : List Int).Nodup := by
  refine ⟨?_, rfl, by decide⟩
  intro t v cols r hr
  simp [updInsert, hr]

/-- C10 witness: with rowids 1 and 2 already present and `nextID = 3`, an
insert with explicit rowid 1 drags `nextID` back down to 2. -/
theorem insert_explicit_rowid_overwrites_nextID_witness :
    updInsert [Value.vtext "C"] 1
        { rows := [{ id := 1, val := "A" }, { id := 2, val := "B" }],
          nextID := 3 } =
      .ok ({ rows := [{ id := 1, val := "A" }, { id := 2, val := "B" },
                      { id := 1, val := "C" }], nextID := 2 }, 1) :=
  insert_explicit_rowid_overwrites_nextID.1 _ _ _ 1 (by decide)

/-! ## Claim C2: the `IdxNum` width guard -/

/-- The dispatcher outcome C2 describes: the query fails before the plan
reaches the engine, with a message naming both `IdxNum` and `int32`. -/
def failsNamingIdxNumAndInt32 (r : Except String IndexInfo) : Prop :=
  match r with
  | .error msg => containsSubstr msg "IdxNum" ∧ containsSubstr msg "int32"
  | .ok _ => False

set_option maxRecDepth 4096 in
/-- C2: for every table whose `BestIndex` sets `IdxNum` to `2^31` (one
past the signed 32-bit maximum), the dispatcher rejects the plan before it
reaches the engine and the resulting error names both `IdxNum` and the
`int32` width constraint. -/
theorem bestIndex_idxNum_overflow_rejected (bi : IndexInfo → IndexInfo)
    (info : IndexInfo) (h : (bi info).idxNum = 2 ^ 31) :
    failsNamingIdxNumAndInt32 (dispatchBestIndex bi info) := by
  have hcond : ((bi info).idxNum < -(2 ^ 31) ∨ (bi info).idxNum > 2 ^ 31 - 1) := by
    rw [h]; norm_num
  simp only [dispatchBestIndex, checkIdxNum, if_pos hcond, Except.map_error]
  rw [h]
  exact (by decide :
    containsSubstr ("vtab: BestIndex set IdxNum to " ++ toString ((2 : Int) ^ 31) ++
      ", which does not fit into an int32") "IdxNum" ∧
    containsSubstr ("vtab: BestIndex set IdxNum to " ++ toString ((2 : Int) ^ 31) ++
      ", which does not fit into an int32") "int32")

/-- C2 witness: `overflowIdxTable.BestIndex` (which sets
`IdxNum = math.MaxInt32 + 1`) is rejected with the required message. -/
theorem bestIndex_idxNum_overflow_rejected_witness :
    failsNamingIdxNumAndInt32
      (dispatchBestIndex overflowIdxBestIndex { constraints := [] }) :=
  bestIndex_idxNum_overflow_rejected overflowIdxBestIndex { constraints := [] }
    (by norm_num [overflowIdxBestIndex])

/-! ## Claims C3 and C4: the `Filter` argument vector -/

/-- The slots assigned by a `BestIndex` output, in constraint order. -/
def slotKeys (cs : List Constraint) : List Nat :=
  cs.filterMap (fun c => c.argIndex)

/-- A dense 0-based slot assignment: the assigned slots are exactly
`0 .. n-1`, with no gaps or duplicates (the invariant the spec demands of
every `BestIndex` output). -/
def DenseAssign (cs : List Constraint) : Prop :=
  (slotKeys cs).Perm (List.range (slotKeys cs).length)

instance (cs : List Constraint) : Decidable (DenseAssign cs) := by
  unfold DenseAssign; exact List.decidablePerm _ _

/-- `filterMap` by an everywhere-`some` function preserves positions. -/
theorem filterMap_getElem?_of_all_some {α β : Type} (f : α → Option β) :
    ∀ (xs : List α), (∀ x ∈ xs, (f x).isSome) →
      ∀ (k : Nat), (xs.filterMap f)[k]? = xs[k]?.bind f := by
  intro xs
  induction xs with
  | nil => intro _ k; simp
  | cons x xs ih =>
    intro h k
    obtain ⟨b, hb⟩ := Option.isSome_iff_exists.mp (h x (by simp))
    rw [List.filterMap_cons_some hb]
    cases k with
    | zero => simp [hb]
    | succ k => simpa using ih (fun y hy => h y (by simp [hy])) k

/-- `filterMap` by an everywhere-`some` function preserves length. -/
theorem filterMap_length_of_all_some {α β : Type} (f : α → Option β) :
    ∀ (xs : List α), (∀ x ∈ xs, (f x).isSome) →
      (xs.filterMap f).length = xs.length := by
  intro xs
  induction xs with
  | nil => intro _; simp
  | cons x xs ih =>
    intro h
    obtain ⟨b, hb⟩ := Option.isSome_iff_exists.mp (h x (by simp))
    rw [List.filterMap_cons_some hb]
    simpa using ih (fun y hy => h y (by simp [hy]))

/-- In a pair list with duplicate-free keys, a key determines its value. -/
theorem key_determines_value {β : Type} :
    ∀ (l : List (Nat × β)), (l.map Prod.fst).Nodup →
      ∀ k v v', (k, v) ∈ l → (k, v') ∈ l → v = v' := by
  intro l
  induction l with
  | nil => intro _ k v v' h _; simp at h
  | cons p l ih =>
    intro hnd k v v' hv hv'
    rw [List.map_cons, List.nodup_cons] at hnd
    obtain ⟨hp, hnd2⟩ := hnd
    rcases List.mem_cons.mp hv with h1 | h1 <;>
      rcases List.mem_cons.mp hv' with h2 | h2
    · rw [← h1] at h2
      exact (congrArg Prod.snd h2).symm
    · rw [← h1] at hp
      exact absurd (List.mem_map.mpr ⟨(k, v'), h2, rfl⟩) hp
    · rw [← h2] at hp
      exact absurd (List.mem_map.mpr ⟨(k, v), h1, rfl⟩) hp
    · exact ih hnd2 k v v' h1 h2

/-- The assigned-slot keys are the `slotKeys` whenever the engine supplies
one comparison value per constraint. -/
theorem assignedSlots_map_fst :
    ∀ (cs : List Constraint) (rhs : List Value),
      cs.length = rhs.length →
      (assignedSlots cs rhs).map Prod.fst = slotKeys cs := by
  intro cs
  induction cs with
  | nil => intro rhs _; simp [assignedSlots, slotKeys]
  | cons c cs ih =>
    intro rhs hlen
    cases rhs with
    | nil => simp at hlen
    | cons v rhs =>
      have hlen' : cs.length = rhs.length := by simpa using hlen
      cases hopt : c.argIndex with
      | none =>
        simp only [assignedSlots, slotKeys, List.zip_cons_cons,
          List.filterMap_cons, hopt, Option.map_none']
        exact ih rhs hlen'
      | some k =>
        simp only [assignedSlots, slotKeys, List.zip_cons_cons,
          List.filterMap_cons, hopt, Option.map_some', List.map_cons,
          List.cons.injEq, true_and]
        exact ih rhs hlen'

/-- Membership in `assignedSlots` names exactly the constraints whose
`argIndex` was assigned, paired with their engine-known value. -/
theorem mem_assignedSlots_iff (cs : List Constraint) (rhs : List Value)
    (k : Nat) (v : Value) :
    (k, v) ∈ assignedSlots cs rhs ↔
      ∃ (i : Nat) (c : Constraint),
        cs[i]? = some c ∧ c.argIndex = some k ∧ rhs[i]? = some v := by
  constructor
  · intro h
    obtain ⟨p, hmem, heq⟩ := List.mem_filterMap.mp h
    obtain ⟨c, v0⟩ := p
    cases hopt : c.argIndex with
    | none => rw [show (c, v0).1 = c from rfl, hopt] at heq; simp at heq
    | some k0 =>
      rw [show (c, v0).1 = c from rfl, hopt] at heq
      simp only [Option.map_some', Option.some.injEq, Prod.mk.injEq] at heq
      obtain ⟨hk, hv⟩ := heq
      have hv2 : v0 = v := hv
      subst hk
      subst hv2
      obtain ⟨i, hi⟩ := List.mem_iff_getElem?.mp hmem
      obtain ⟨h1, h2⟩ := List.getElem?_zip_eq_some.mp hi
      exact ⟨i, c, h1, hopt, h2⟩
  · rintro ⟨i, c, h1, h2, h3⟩
    refine List.mem_filterMap.mpr ⟨(c, v), ?_, ?_⟩
    · exact List.mem_iff_getElem?.mpr ⟨i, List.getElem?_zip_eq_some.mpr ⟨h1, h3⟩⟩
    · rw [show (c, v).1 = c from rfl, h2]
      rfl

/-- Under a dense assignment the slot keys are duplicate-free, a key is
present exactly when it is below the slot count, and looking a slot up
always succeeds. -/
theorem assignedSlots_dense_facts (cs : List Constraint) (rhs : List Value)
    (hlen : cs.length = rhs.length) (hdense : DenseAssign cs) :
    ((assignedSlots cs rhs).map Prod.fst).Nodup ∧
    (∀ j : Nat, j ∈ (assignedSlots cs rhs).map Prod.fst ↔
      j < (assignedSlots cs rhs).length) ∧
    (∀ j : Nat, j < (assignedSlots cs rhs).length →
      ∃ w, (assignedSlots cs rhs).find? (fun p => p.1 = j) = some (j, w)) := by
  have hkeys : (assignedSlots cs rhs).map Prod.fst = slotKeys cs :=
    assignedSlots_map_fst cs rhs hlen
  have hlen2 : (assignedSlots cs rhs).length = (slotKeys cs).length := by
    rw [← hkeys, List.length_map]
  have hperm : ((assignedSlots cs rhs).map Prod.fst).Perm
      (List.range (assignedSlots cs rhs).length) := by
    rw [hkeys, hlen2]
    exact hdense
  have hnodup : ((assignedSlots cs rhs).map Prod.fst).Nodup :=
    hperm.nodup_iff.mpr (List.nodup_range _)
  have hmemk : ∀ j : Nat, j ∈ (assignedSlots cs rhs).map Prod.fst ↔
      j < (assignedSlots cs rhs).length := by
    intro j; rw [hperm.mem_iff, List.mem_range]
  refine ⟨hnodup, hmemk, ?_⟩
  intro j hj
  obtain ⟨p, hp, hpj⟩ := List.mem_map.mp ((hmemk j).mpr hj)
  have hsome : ((assignedSlots cs rhs).find? (fun p => p.1 = j)).isSome := by
    rw [List.find?_isSome]
    exact ⟨p, hp, by simp [hpj]⟩
  obtain ⟨q, hq⟩ := Option.isSome_iff_exists.mp hsome
  obtain ⟨q1, q2⟩ := q
  have hq1 : q1 = j := by simpa using List.find?_some hq
  subst hq1
  exact ⟨q2, hq⟩

/-- Under a dense assignment, position `k` of the built argument vector
holds a value exactly when some constraint was assigned slot `k` and the
engine knows that value for it. -/
theorem buildArgv_getElem?_iff (cs : List Constraint) (rhs : List Value)
    (hlen : cs.length = rhs.length) (hdense : DenseAssign cs)
    (k : Nat) (v : Value) :
    (buildArgv cs rhs)[k]? = some v ↔
      ∃ (i : Nat) (c : Constraint),
        cs[i]? = some c ∧ c.argIndex = some k ∧ rhs[i]? = some v := by
  obtain ⟨hnodup, hmemk, hfind⟩ :=
    assignedSlots_dense_facts cs rhs hlen hdense
  have hall : ∀ j ∈ List.range (assignedSlots cs rhs).length,
      (((assignedSlots cs rhs).find? (fun p => p.1 = j)).map Prod.snd).isSome := by
    intro j hj
    obtain ⟨w, hw⟩ := hfind j (List.mem_range.mp hj)
    rw [hw]
    rfl
  constructor
  · intro h
    rw [buildArgv, filterMap_getElem?_of_all_some _ _ hall k] at h
    by_cases hk : k < (assignedSlots cs rhs).length
    · rw [List.getElem?_range hk] at h
      simp only [Option.some_bind] at h
      obtain ⟨w, hw⟩ := hfind k hk
      rw [hw] at h
      simp only [Option.map_some', Option.some.injEq] at h
      subst h
      exact (mem_assignedSlots_iff cs rhs k w).mp (List.mem_of_find?_eq_some hw)
    · rw [List.getElem?_eq_none (by simpa using Nat.le_of_not_lt hk)] at h
      simp at h
  · intro hex
    have hmem : (k, v) ∈ assignedSlots cs rhs :=
      (mem_assignedSlots_iff cs rhs k v).mpr hex
    have hk : k < (assignedSlots cs rhs).length := by
      rw [← hmemk]
      exact List.mem_map.mpr ⟨(k, v), hmem, rfl⟩
    obtain ⟨w, hw⟩ := hfind k hk
    have hwv : w = v :=
      key_determines_value (assignedSlots cs rhs) hnodup k w v
        (List.mem_of_find?_eq_some hw) hmem
    rw [buildArgv, filterMap_getElem?_of_all_some _ _ hall k,
      List.getElem?_range hk]
    simp [hw, hwv]

/-- Under a dense assignment, the argument vector has exactly one entry
per assigned slot. -/
theorem buildArgv_length (cs : List Constraint) (rhs : List Value)
    (hlen : cs.length = rhs.length) (hdense : DenseAssign cs) :
    (buildArgv cs rhs).length = (slotKeys cs).length := by
  obtain ⟨_, _, hfind⟩ := assignedSlots_dense_facts cs rhs hlen hdense
  have hall : ∀ j ∈ List.range (assignedSlots cs rhs).length,
      (((assignedSlots cs rhs).find? (fun p => p.1 = j)).map Prod.snd).isSome := by
    intro j hj
    obtain ⟨w, hw⟩ := hfind j (List.mem_range.mp hj)
    rw [hw]
    rfl
  rw [buildArgv, filterMap_length_of_all_some _ _ hall, List.length_range,
    ← assignedSlots_map_fst cs rhs hlen, List.length_map]

/-- The draft IndexInfo of `TestVtabConstraintArgIndex`: two usable EQ
constraints, on columns 0 and 1. -/
def infoC34 : IndexInfo :=
  { constraints := [{ column := 0, op := .opEQ, usable := true },
                    { column := 1, op := .opEQ, usable := true }] }

/-- C3 counterexample: in the `TestVtabConstraintArgIndex` scenario,
`argIndexTable.BestIndex` assigns ArgIndex 0 and 1, and the constraint
whose ArgIndex output is zero DOES have its comparison value delivered —
it arrives at position 0 of the Filter argument vector, which has two
entries rather than the single entry the claim's reading would leave. -/
theorem argIndex_zero_value_is_delivered :
    (argIndexBestIndex infoC34).constraints.map (fun c => c.argIndex) =
      [some 0, some 1] ∧
    buildArgv (argIndexBestIndex infoC34).constraints
      [Value.vint 10, Value.vint 20] = [Value.vint 10, Value.vint 20] ∧
    buildArgv (argIndexBestIndex infoC34).constraints
      [Value.vint 10, Value.vint 20] ≠ [Value.vint 20] := by decide

/-- C3 (amended): a constraint whose ArgIndex output is left unassigned is
not requested and contributes no value to the Filter argument vector,
while an ArgIndex assigned slot `k` — including `k = 0` — places that
constraint's comparison value at 0-based position `k` of the vector: under
a dense assignment, position `k` holds value `v` exactly when a constraint
assigned slot `k` has engine-known value `v`. -/
theorem argv_slot_values_iff_assigned (cs : List Constraint)
    (rhs : List Value) (hlen : cs.length = rhs.length)
    (hdense : DenseAssign cs) (k : Nat) (v : Value) :
    (buildArgv cs rhs)[k]? = some v ↔
      ∃ (i : Nat) (c : Constraint),
        cs[i]? = some c ∧ c.argIndex = some k ∧ rhs[i]? = some v :=
  buildArgv_getElem?_iff cs rhs hlen hdense k v

/-- C3 witness: the slot-0 constraint of the test scenario receives
position 0 of the vector. -/
theorem argv_slot_values_iff_assigned_witness :
    (buildArgv (argIndexBestIndex infoC34).constraints
      [Value.vint 10, Value.vint 20])[0]? = some (Value.vint 10) :=
  (argv_slot_values_iff_assigned (argIndexBestIndex infoC34).constraints
    [Value.vint 10, Value.vint 20] (by decide) (by decide) 0
    (Value.vint 10)).mpr
    ⟨0, { column := 0, op := .opEQ, usable := true, argIndex := some 0 },
      by decide, by decide, by decide⟩

/-- C4: for every plan accepted by the dispatcher, `Filter` receives
exactly the `IdxNum` and `IdxStr` that `BestIndex` wrote into the
IndexInfo, and an argument vector with exactly one entry per assigned
ArgIndex slot, the value of the constraint assigned slot `k` appearing at
position `k`. -/
theorem runPlan_filter_receives_plan_and_argv {σ : Type}
    (bi : IndexInfo → IndexInfo) (flt : Int → String → List Value → σ)
    (info : IndexInfo) (rhs : List Value)
    (hlo : -(2 ^ 31) ≤ (bi info).idxNum)
    (hhi : (bi info).idxNum ≤ 2 ^ 31 - 1)
    (hlen : (bi info).constraints.length = rhs.length)
    (hdense : DenseAssign (bi info).constraints) :
    runPlan bi flt info rhs =
      .ok (flt (bi info).idxNum (bi info).idxStr
        (buildArgv (bi info).constraints rhs)) ∧
    (buildArgv (bi info).constraints rhs).length =
      (slotKeys (bi info).constraints).length ∧
    ∀ (i : Nat) (c : Constraint) (k : Nat),
      (bi info).constraints[i]? = some c → c.argIndex = some k →
      (buildArgv (bi info).constraints rhs)[k]? = rhs[i]? := by
  refine ⟨?_, buildArgv_length _ _ hlen hdense, ?_⟩
  · have hcond : ¬((bi info).idxNum < -(2 ^ 31) ∨
        (bi info).idxNum > 2 ^ 31 - 1) := by
      push_neg
      exact ⟨by omega, by omega⟩
    have hchk : checkIdxNum (bi info).idxNum = .ok (bi info).idxNum := by
      unfold checkIdxNum
      rw [if_neg hcond]
    simp only [runPlan, dispatchBestIndex]
    rw [hchk]
    rfl
  · intro i c k hc hk
    have hi : i < rhs.length := by
      rw [← hlen]
      exact (List.getElem?_eq_some.mp hc).1
    have hv : rhs[i]? = some rhs[i] := List.getElem?_eq_getElem hi
    rw [hv]
    exact (buildArgv_getElem?_iff _ _ hlen hdense k rhs[i]).mpr
      ⟨i, c, hc, hk, hv⟩

/-- C4 witness: in the `TestVtabConstraintArgIndex` scenario the cursor's
`Filter` receives the plan tag and both argument values, in slot order. -/
theorem runPlan_filter_receives_plan_and_argv_witness :
    runPlan argIndexBestIndex argIndexFilter infoC34
        [Value.vint 10, Value.vint 20] =
      .ok (argIndexFilter (argIndexBestIndex infoC34).idxNum
        (argIndexBestIndex infoC34).idxStr
        (buildArgv (argIndexBestIndex infoC34).constraints
          [Value.vint 10, Value.vint 20])) :=
  (runPlan_filter_receives_plan_and_argv argIndexBestIndex argIndexFilter
    infoC34 [Value.vint 10, Value.vint 20]
    (by decide) (by decide) (by decide) (by decide)).1

/-! ## Claim C1: the `Omit=true` promise of the CSV EQ plan -/

/-- C1 counterexample: `csvTable.BestIndex` does pick plan `IdxNum=1` with
`Omit=true` for a usable EQ constraint, yet `Filter(1, idxStr, vals)` with
an unparsable `idxStr` silently skips all filtering, so the cursor yields
the row `["b"]`, which violates the pushed-down equality `column = "a"`. -/
theorem csvFilter_bad_idxStr_breaks_omit_promise :
    (csvBestIndex
        { cols := ["c"], rows := [["a"], ["b"]], nextID := 3, header := true }
        { constraints :=
            [{ column := 0, op := .opEQ, usable := true }] }).idxNum = 1 ∧
    (csvBestIndex
        { cols := ["c"], rows := [["a"], ["b"]], nextID := 3, header := true }
        { constraints :=
            [{ column := 0, op := .opEQ, usable := true }] }).constraints.map
      (fun c => c.Omit) = [true] ∧
    ["b"] ∈ (csvFilter
        (csvOpen { cols := ["c"], rows := [["a"], ["b"]], nextID := 3,
                   header := true })
        1 "x" [Value.vtext "a"]).rows ∧
    ¬ (["b"] : List String).getD 0 "" = goSprint (Value.vtext "a") := by
  decide

/-- C1 (amended): under the EQ plan (`IdxNum=1`, chosen with `Omit=true`),
whenever `idxStr` parses to a declared column index and at least one
argument value is delivered, every row the cursor can yield satisfies the
pushed-down equality — its cell at that column equals `fmt.Sprint` of the
first argument; when `idxStr` does not parse, is out of range, or the
argument vector is empty, `Filter` silently degrades to a full scan. -/
theorem csvFilter_eq_plan_enforces_equality (c : CsvCursor)
    (idxStr : String) (col : Int) (v : Value) (vs : List Value)
    (hcol : goAtoi idxStr = some col) (h0 : 0 ≤ col)
    (h1 : col < (c.t.cols.length : Int)) :
    ∀ r ∈ (csvFilter c 1 idxStr (v :: vs)).rows,
      col.toNat < r.length ∧ r.getD col.toNat "" = goSprint v := by
  intro r hr
  have hcond : ¬(col < 0 ∨ (c.t.cols.length : Int) ≤ col) := by omega
  simp only [csvFilter, if_pos rfl, hcol, if_neg hcond] at hr
  have := List.mem_filter.mp hr
  exact of_decide_eq_true this.2

/-- C1 witness: filtering the two-row table on column 0 with value `"a"`
yields rows satisfying the equality; the row `["a"]` does. -/
theorem csvFilter_eq_plan_enforces_equality_witness :
    (0 : Int).toNat < (["a"] : List String).length ∧
    (["a"] : List String).getD (0 : Int).toNat "" =
      goSprint (Value.vtext "a") :=
  csvFilter_eq_plan_enforces_equality
    (csvOpen { cols := ["c"], rows := [["a"], ["b"]], nextID := 3,
               header := true })
    "0" 0 (Value.vtext "a") [] (by decide) (by decide) (by decide)
    ["a"] (by decide)

/-! ## Claim C8: `Column` out of bounds and past Eof -/

/-- C8 counterexample: past Eof or beyond the declared columns, every
cursor's `Column` returns the nil Value with a nil error — it does not
fail as the claim demands. -/
theorem column_out_of_bounds_returns_nil_not_error :
    csvColumn { t := { cols := ["c"], rows := [["a"], ["b"]], nextID := 3,
                       header := true },
                rows := [["a"], ["b"]], pos := 2 } 0 = .ok .vnull ∧
    csvEof { t := { cols := ["c"], rows := [["a"], ["b"]], nextID := 3,
                    header := true },
             rows := [["a"], ["b"]], pos := 2 } = true ∧
    csvColumn { t := { cols := ["c"], rows := [["a"], ["b"]], nextID := 3,
                       header := true },
                rows := [["a"], ["b"]], pos := 0 } 5 = .ok .vnull ∧
    dummyColumn { rows := [(1, "alpha"), (2, "beta")], pos := 2 } 0 =
      .ok .vnull ∧
    echoColumn { rows := echoAll, pos := 3 } 0 = .ok .vnull := by decide

/-- C8 (amended): `Column(index)` returns the declared column's Value at
the current position when the index is in bounds and the cursor is not
past Eof; out of bounds or past Eof it returns the nil Value with no
error (it never fails). -/
theorem column_in_bounds_value_else_nil :
    (∀ (c : CsvCursor) (col : Nat), c.pos < c.rows.length →
      col < c.t.cols.length →
      (∀ r ∈ c.rows, r.length = c.t.cols.length) →
      csvColumn c col = .ok (.vtext ((c.rows.getD c.pos []).getD col ""))) ∧
    (∀ (c : CsvCursor) (col : Nat),
      c.rows.length ≤ c.pos ∨ c.t.cols.length ≤ col →
      csvColumn c col = .ok .vnull) ∧
    (∀ (c : DummyCursor), c.pos < c.rows.length →
      dummyColumn c 0 = .ok (.vtext (c.rows.getD c.pos (0, "")).2)) ∧
    (∀ (c : DummyCursor) (col : Nat), c.rows.length ≤ c.pos ∨ col ≠ 0 →
      dummyColumn c col = .ok .vnull) ∧
    (∀ (c : EchoCursor), c.pos < c.rows.length →
      echoColumn c 0 = .ok (.vtext (c.rows.getD c.pos ""))) ∧
    (∀ (c : EchoCursor) (col : Nat), c.rows.length ≤ c.pos ∨ col ≠ 0 →
      echoColumn c col = .ok .vnull) := by
  refine ⟨?_, ?_, ?_, ?_, ?_, ?_⟩
  · intro c col hpos hcol hw
    unfold csvColumn
    rw [if_neg (by omega), List.getD_eq_getElem _ _ hpos]
    have hmem : c.rows[c.pos] ∈ c.rows := List.getElem_mem hpos
    have hlen : (c.rows[c.pos]).length = c.t.cols.length := hw _ hmem
    have hcl : col < (c.rows[c.pos]).length := by omega
    rw [List.get?_eq_getElem?, List.getElem?_eq_getElem hcl,
      List.getD_eq_getElem _ _ hcl]
  · intro c col h
    unfold csvColumn
    rw [if_pos (by omega)]
  · intro c hpos
    unfold dummyColumn
    rw [if_neg (by omega), if_pos rfl]
  · intro c col h
    unfold dummyColumn
    rcases h with h | h
    · rw [if_pos (by omega)]
    · by_cases hp : c.rows.length ≤ c.pos
      · rw [if_pos hp]
      · rw [if_neg hp, if_neg h]
  · intro c hpos
    unfold echoColumn
    rw [if_pos ⟨rfl, hpos⟩]
  · intro c col h
    unfold echoColumn
    rw [if_neg ?_]
    rintro ⟨rfl, hlt⟩
    rcases h with h | h
    · omega
    · exact h rfl

/-- C8 witness: the in-bounds branch on a concrete CSV cursor. -/
theorem column_in_bounds_value_else_nil_witness :
    csvColumn { t := { cols := ["c"], rows := [["a"], ["b"]], nextID := 3,
                       header := true },
                rows := [["a"], ["b"]], pos := 1 } 0 = .ok (.vtext "b") :=
  column_in_bounds_value_else_nil.1
    { t := { cols := ["c"], rows := [["a"], ["b"]], nextID := 3,
             header := true },
      rows := [["a"], ["b"]], pos := 1 } 0 (by decide) (by decide)
    (by decide)

/-! ## Claim C9: the cursor position invariant -/

/-- The position invariant of a `csvCursor`: never past one-past-the-end,
`Eof` exactly at the end, and `Next` at Eof a no-op. -/
def csvCursorInv (c : CsvCursor) : Prop :=
  c.pos ≤ c.rows.length ∧ (csvEof c = true ↔ c.pos = c.rows.length) ∧
  (csvEof c = true → csvNext c = c)

/-- The position invariant of an `echoCursor`. -/
def echoCursorInv (c : EchoCursor) : Prop :=
  c.pos ≤ c.rows.length ∧ (echoEof c = true ↔ c.pos = c.rows.length) ∧
  (echoEof c = true → echoNext c = c)

/-- The position invariant of a `matchCursor`. -/
def matchCursorInv (c : MatchCursor) : Prop :=
  c.pos ≤ c.rows.length ∧ (matchEof c = true ↔ c.pos = c.rows.length) ∧
  (matchEof c = true → matchNext c = c)

/-- The position invariant of a `reCursor`. -/
def reCursorInv (c : ReCursor) : Prop :=
  c.pos ≤ c.rows.length ∧ (reEof c = true ↔ c.pos = c.rows.length) ∧
  (reEof c = true → reNext c = c)

/-- The position invariant of a `dummyCursor`. -/
def dummyCursorInv (c : DummyCursor) : Prop :=
  c.pos ≤ c.rows.length ∧ (dummyEof c = true ↔ c.pos = c.rows.length) ∧
  (dummyEof c = true → dummyNext c = c)

/-- `csvCursor.Filter` rewinds to position 0. -/
theorem csvFilter_pos (c : CsvCursor) (n : Int) (s : String)
    (vals : List Value) : (csvFilter c n s vals).pos = 0 := by
  unfold csvFilter
  repeat' split
  all_goals rfl

/-- A `csvCursor` trace preserves the position bound. -/
theorem csv_trace_pos_le (ops : List CursorOp) :
    ∀ c : CsvCursor, c.pos ≤ c.rows.length →
      (ops.foldl csvStep c).pos ≤ (ops.foldl csvStep c).rows.length := by
  induction ops with
  | nil => intro c h; exact h
  | cons op ops ih =>
    intro c h
    refine ih _ ?_
    cases op with
    | filt n s v =>
      show (csvFilter c n s v).pos ≤ (csvFilter c n s v).rows.length
      rw [csvFilter_pos]
      exact Nat.zero_le _
    | next =>
      show (csvNext c).pos ≤ (csvNext c).rows.length
      unfold csvNext
      split
      · next hlt => show c.pos + 1 ≤ c.rows.length; omega
      · exact h
    | close => exact h

/-- An `echoCursor` trace preserves the position bound. -/
theorem echo_trace_pos_le (ops : List CursorOp) :
    ∀ c : EchoCursor, c.pos ≤ c.rows.length →
      (ops.foldl echoStep c).pos ≤ (ops.foldl echoStep c).rows.length := by
  induction ops with
  | nil => intro c h; exact h
  | cons op ops ih =>
    intro c h
    refine ih _ ?_
    cases op with
    | filt n s v => exact Nat.zero_le _
    | next =>
      show (echoNext c).pos ≤ (echoNext c).rows.length
      unfold echoNext
      split
      · next hlt => show c.pos + 1 ≤ c.rows.length; omega
      · exact h
    | close => exact h

/-- A `matchCursor` trace preserves the position bound. -/
theorem match_trace_pos_le (ops : List CursorOp) :
    ∀ c : MatchCursor, c.pos ≤ c.rows.length →
      (ops.foldl matchStep c).pos ≤ (ops.foldl matchStep c).rows.length := by
  induction ops with
  | nil => intro c h; exact h
  | cons op ops ih =>
    intro c h
    refine ih _ ?_
    cases op with
    | filt n s v => exact Nat.zero_le _
    | next =>
      show (matchNext c).pos ≤ (matchNext c).rows.length
      unfold matchNext
      split
      · next hlt => show c.pos + 1 ≤ c.rows.length; omega
      · exact h
    | close => exact h

/-- A `reCursor` trace preserves the position bound, for every regexp
engine. -/
theorem re_trace_pos_le (compile : String → Option (String → Bool))
    (ops : List CursorOp) :
    ∀ c : ReCursor, c.pos ≤ c.rows.length →
      (ops.foldl (reStep compile) c).pos ≤
        (ops.foldl (reStep compile) c).rows.length := by
  induction ops with
  | nil => intro c h; exact h
  | cons op ops ih =>
    intro c h
    refine ih _ ?_
    cases op with
    | filt n s v => exact Nat.zero_le _
    | next =>
      show (reNext c).pos ≤ (reNext c).rows.length
      unfold reNext
      split
      · next hlt => show c.pos + 1 ≤ c.rows.length; omega
      · exact h
    | close => exact h

/-- A `dummyCursor` trace preserves the position bound. -/
theorem dummy_trace_pos_le (ops : List CursorOp) :
    ∀ c : DummyCursor, c.pos ≤ c.rows.length →
      (ops.foldl dummyStep c).pos ≤ (ops.foldl dummyStep c).rows.length := by
  induction ops with
  | nil => intro c h; exact h
  | cons op ops ih =>
    intro c h
    refine ih _ ?_
    cases op with
    | filt n s v =>
      show (dummyFilter n).pos ≤ (dummyFilter n).rows.length
      unfold dummyFilter
      split
      · exact Nat.zero_le _
      · exact Nat.zero_le _
    | next =>
      show (dummyNext c).pos ≤ (dummyNext c).rows.length
      unfold dummyNext
      split
      · next hlt => show c.pos + 1 ≤ c.rows.length; omega
      · exact h
    | close => exact Nat.zero_le _

/-- C9: for every cursor implementation (csvCursor, echoCursor,
matchCursor, dummyCursor, reCursor) and any sequence of Filter, Next and
Close calls after Open, the position stays within `0 .. len(rows)` (it is
a natural number, and the code only ever increments it below the bound),
`Eof` holds exactly at `pos = len(rows)`, and `Next` at Eof returns nil
and leaves the cursor unchanged. -/
theorem cursor_position_invariant :
    (∀ (t : CsvTable) (ops : List CursorOp),
      csvCursorInv (ops.foldl csvStep (csvOpen t))) ∧
    (∀ ops : List CursorOp, echoCursorInv (ops.foldl echoStep echoOpen)) ∧
    (∀ ops : List CursorOp, matchCursorInv (ops.foldl matchStep matchOpen)) ∧
    (∀ (compile : String → Option (String → Bool)) (ops : List CursorOp),
      reCursorInv (ops.foldl (reStep compile) reOpen)) ∧
    (∀ ops : List CursorOp, dummyCursorInv (ops.foldl dummyStep dummyOpen)) := by
  refine ⟨?_, ?_, ?_, ?_, ?_⟩
  · intro t ops
    have h := csv_trace_pos_le ops (csvOpen t) (Nat.zero_le _)
    refine ⟨h, ?_, ?_⟩
    · simp only [csvEof, decide_eq_true_eq]
      omega
    · intro he
      have hle := of_decide_eq_true he
      unfold csvNext
      rw [if_neg (by omega)]
  · intro ops
    have h := echo_trace_pos_le ops echoOpen (Nat.zero_le _)
    refine ⟨h, ?_, ?_⟩
    · simp only [echoEof, decide_eq_true_eq]
      omega
    · intro he
      have hle := of_decide_eq_true he
      unfold echoNext
      rw [if_neg (by omega)]
  · intro ops
    have h := match_trace_pos_le ops matchOpen (Nat.zero_le _)
    refine ⟨h, ?_, ?_⟩
    · simp only [matchEof, decide_eq_true_eq]
      omega
    · intro he
      have hle := of_decide_eq_true he
      unfold matchNext
      rw [if_neg (by omega)]
  · intro compile ops
    have h := re_trace_pos_le compile ops reOpen (Nat.zero_le _)
    refine ⟨h, ?_, ?_⟩
    · simp only [reEof, decide_eq_true_eq]
      omega
    · intro he
      have hle := of_decide_eq_true he
      unfold reNext
      rw [if_neg (by omega)]
  · intro ops
    have h := dummy_trace_pos_le ops dummyOpen (Nat.zero_le _)
    refine ⟨h, ?_, ?_⟩
    · simp only [dummyEof, decide_eq_true_eq]
      omega
    · intro he
      have hle := of_decide_eq_true he
      unfold dummyNext
      rw [if_neg (by omega)]

/-! ## Claim C6: `Update` semantics of both Updater tables -/

/-- The rowid an `updaterTableX.Update` leaves on the located row: the
supplied `newRowid` when it is non-nil, non-zero and differs from
`oldRowid`, otherwise `oldRowid`. -/
def updNewId (old : Int) (new : Option Int) : Int :=
  match new with
  | some m => if m ≠ 0 ∧ m ≠ old then m else old
  | none => old

/-- The `updaterTableX.Update` scan is first-match-and-set. -/
theorem updUpdateRows_eq_findIdx (old : Int) (v : Value)
    (new : Option Int) :
    ∀ rows : List UpdRow,
      updUpdateRows old v new rows =
        (rows.findIdx? (fun r => r.id = old)).map (fun i =>
          rows.set i { id := updNewId old new, val := goAssertString v }) := by
  intro rows
  induction rows with
  | nil => rfl
  | cons r rest ih =>
    by_cases hid : r.id = old
    · simp only [updUpdateRows]
      rw [if_pos hid, List.findIdx?_cons, if_pos (by simpa using hid)]
      rfl
    · simp only [updUpdateRows]
      rw [if_neg hid, List.findIdx?_cons, if_neg (by simpa using hid),
        List.findIdx?_succ, ih, Option.map_map, Option.map_map]
      rfl

/-- C6 counterexample: on the positional-rowid `csvTable`, relocating the
located row's identity is implemented as a swap — updating rowid 1's
record to `["A"]` with `newRowid = 3` moves the record `["c"]`, which held
rowid 3 and was not the located row, down to rowid 1: more than "exactly
the located row" changes identity. -/
theorem csvUpdate_relocation_swaps_two_rowids :
    csvUpdate { cols := ["c"], rows := [["a"], ["b"], ["c"]], nextID := 4,
                header := true }
        1 [Value.vtext "A"] (some 3) =
      .ok { cols := ["c"], rows := [["c"], ["b"], ["A"]], nextID := 4,
            header := true } ∧
    ¬ ([["c"], ["b"], ["A"]] : List (List String)).getD 0 [] = ["a"] ∧
    ([["c"], ["b"], ["A"]] : List (List String)).getD 0 [] = ["c"] := by
  decide

/-- C6 (amended): `Update(oldRowid, cols, newRowid)` locates the row by
`oldRowid` and fails when it is absent (`row not found` for
`updaterTableX`, `out of range` for the positional `csvTable`); on
success it replaces that row's column values.  For `updaterTableX`
exactly the located row is touched, and its id moves to `newRowid` only
when that is non-nil, non-zero and distinct.  For `csvTable`, whose
rowids are positions, a distinct non-zero in-range `newRowid` swaps the
updated record with the record at `newRowid` — the located row takes
identity `newRowid`, but the displaced record simultaneously takes
identity `oldRowid`; an out-of-range `newRowid` relocates nothing. -/
theorem update_locates_replaces_and_relocates :
    (∀ (t : UpdaterTableX) (old : Int) (v : Value) (cols : List Value)
      (new : Option Int),
      (∀ r ∈ t.rows, r.id ≠ old) →
      updUpdate old (v :: cols) new t =
        .error ("row " ++ toString old ++ " not found")) ∧
    (∀ (t : UpdaterTableX) (old : Int) (v : Value) (cols : List Value)
      (new : Option Int) (i : Nat),
      t.rows.findIdx? (fun r => r.id = old) = some i →
      updUpdate old (v :: cols) new t =
        .ok { t with rows := t.rows.set i (⟨updNewId old new, goAssertString v⟩ : UpdRow) } ∧
      ∀ j : Nat, j ≠ i →
        (t.rows.set i (⟨updNewId old new, goAssertString v⟩ : UpdRow))[j]? =
          t.rows[j]?) ∧
    (∀ (t : CsvTable) (old : Int) (cols : List Value) (new : Option Int),
      old < 1 ∨ (t.rows.length : Int) < old →
      csvUpdate t old cols new =
        .error ("csv: rowid " ++ toString old ++ " out of range")) ∧
    (∀ (t : CsvTable) (old : Int) (cols : List Value) (new : Option Int),
      1 ≤ old → old ≤ (t.rows.length : Int) →
      (new = none ∨ new = some 0 ∨ new = some old) →
      csvUpdate t old cols new =
        .ok { t with rows := t.rows.set (old - 1).toNat (valuesToStrings cols t.cols.length) }) ∧
    (∀ (t : CsvTable) (old m : Int) (cols : List Value),
      1 ≤ old → old ≤ (t.rows.length : Int) → m ≠ 0 → m ≠ old →
      (m < 1 ∨ (t.rows.length : Int) < m) →
      csvUpdate t old cols (some m) =
        .ok { t with rows := t.rows.set (old - 1).toNat (valuesToStrings cols t.cols.length) }) ∧
    (∀ (t : CsvTable) (old m : Int) (cols : List Value) (t' : CsvTable),
      1 ≤ old → old ≤ (t.rows.length : Int) → m ≠ 0 → m ≠ old →
      1 ≤ m → m ≤ (t.rows.length : Int) →
      csvUpdate t old cols (some m) = .ok t' →
      t'.rows.length = t.rows.length ∧
      t'.rows[(m - 1).toNat]? =
        some (valuesToStrings cols t.cols.length) ∧
      t'.rows[(old - 1).toNat]? = t.rows[(m - 1).toNat]? ∧
      ∀ j : Nat, j ≠ (old - 1).toNat → j ≠ (m - 1).toNat →
        t'.rows[j]? = t.rows[j]?) := by
  refine ⟨?_, ?_, ?_, ?_, ?_, ?_⟩
  · intro t old v cols new hnone
    have hfind : t.rows.findIdx? (fun r => r.id = old) = none := by
      rw [List.findIdx?_eq_none_iff]
      intro r hr
      simpa using hnone r hr
    simp only [updUpdate]
    rw [updUpdateRows_eq_findIdx, hfind]
    rfl
  · intro t old v cols new i hfind
    constructor
    · simp only [updUpdate]
      rw [updUpdateRows_eq_findIdx, hfind]
      rfl
    · intro j hj
      exact List.getElem?_set_ne (fun h => hj h.symm)
  · intro t old cols new h
    simp only [csvUpdate]
    rw [if_pos (by omega)]
  · intro t old cols new h1 h2 hnew
    simp only [csvUpdate]
    rw [if_neg (by omega)]
    rcases hnew with rfl | rfl | rfl
    · rfl
    · simp
    · simp
  · intro t old m cols h1 h2 hm0 hmold hout
    simp only [csvUpdate]
    rw [if_neg (by omega)]
    simp only [if_pos (And.intro hm0 hmold)]
    rw [if_neg (by rw [List.length_set]; omega)]
  · intro t old m cols t' h1 h2 hm0 hmold h3 h4 hupd
    have hij : (old - 1).toNat ≠ (m - 1).toNat := by omega
    simp only [csvUpdate] at hupd
    rw [if_neg (by omega)] at hupd
    simp only [if_pos (And.intro hm0 hmold)] at hupd
    rw [if_pos (by rw [List.length_set]; omega)] at hupd
    have ht' := Except.ok.inj hupd
    subst ht'
    have hilen : (old - 1).toNat < t.rows.length := by omega
    have hjlen : (m - 1).toNat < t.rows.length := by omega
    have hlen1 : (t.rows.set (old - 1).toNat
        (valuesToStrings cols t.cols.length)).length = t.rows.length :=
      List.length_set t.rows _ _
    have hgi : (t.rows.set (old - 1).toNat
        (valuesToStrings cols t.cols.length)).getD (old - 1).toNat [] =
        valuesToStrings cols t.cols.length := by
      simp only [List.getD, List.get?_eq_getElem?]
      rw [List.getElem?_set_self (by omega)]
      rfl
    have hgj : (t.rows.set (old - 1).toNat
        (valuesToStrings cols t.cols.length)).getD (m - 1).toNat [] =
        t.rows.getD (m - 1).toNat [] := by
      simp only [List.getD, List.get?_eq_getElem?]
      rw [List.getElem?_set_ne hij]
    refine ⟨?_, ?_, ?_, ?_⟩
    · show (((t.rows.set _ _).set _ _).set _ _).length = _
      simp [List.length_set]
    · show (((t.rows.set _ _).set _ _).set _ _)[(m - 1).toNat]? = _
      rw [List.getElem?_set_self (by simp [List.length_set]; omega), hgi]
    · show (((t.rows.set _ _).set _ _).set _ _)[(old - 1).toNat]? = _
      rw [List.getElem?_set_ne hij.symm,
        List.getElem?_set_self (by rw [hlen1]; omega), hgj,
        List.getD_eq_getElem t.rows [] hjlen,
        List.getElem?_eq_getElem hjlen]
    · intro p hpi hpj
      show (((t.rows.set _ _).set _ _).set _ _)[p]? = _
      rw [List.getElem?_set_ne (fun h => hpj h.symm),
        List.getElem?_set_ne (fun h => hpi h.symm),
        List.getElem?_set_ne (fun h => hpi h.symm)]

/-- C6 witness: the test scenario — updating rowid 2's value from `Bob`
to `Bobby` with `newRowid = oldRowid` leaves the rowid set `{1,2,3}`
unchanged and replaces only the value. -/
theorem update_locates_replaces_and_relocates_witness :
    updUpdate 2 [Value.vtext "Bobby"] (some 2)
        { rows := [{ id := 1, val := "Alice" }, { id := 2, val := "Bob" },
                   { id := 3, val := "Carol" }], nextID := 4 } =
      .ok { rows := [{ id := 1, val := "Alice" },
                     { id := 2, val := "Bobby" },
                     { id := 3, val := "Carol" }], nextID := 4 } :=
  (update_locates_replaces_and_relocates.2.1
    { rows := [{ id := 1, val := "Alice" }, { id := 2, val := "Bob" },
               { id := 3, val := "Carol" }], nextID := 4 }
    2 (Value.vtext "Bobby") [] (some 2) 1 (by decide)).1

/-! ## Claim C7: reattaching to a flushed CSV file -/

/-- A plain field: one the csv writer emits verbatim, without quoting. -/
def plainField (f : String) : Prop := fieldNeedsQuotes f = false

instance (f : String) : Decidable (plainField f) := by
  unfold plainField; infer_instance

/-- A plain field contains no delimiter, quote or line-break character. -/
theorem plainField_no_special (f : String) (h : plainField f) :
    ∀ c ∈ f.data, ¬(c = ',' ∨ c = '"' ∨ c = '\r' ∨ c = '\n') := by
  intro c hc hor
  unfold plainField fieldNeedsQuotes at h
  by_cases h0 : f = ""
  · subst h0
    simp only [String.data] at hc
    simp at hc
  · rw [if_neg h0] at h
    by_cases h1 : f = "\\."
    · rw [if_pos h1] at h
      exact Bool.true_eq_false ▸ h ▸ rfl
    · rw [if_neg h1] at h
      by_cases h2 : f.data.any (fun c => c = ',' ∨ c = '"' ∨ c = '\r' ∨ c = '\n')
      · rw [if_pos h2] at h
        exact absurd h (by simp)
      · exact h2 (List.any_eq_true.mpr ⟨c, hc, decide_eq_true hor⟩)

/-- A plain field is emitted verbatim. -/
theorem encodeField_plain (f : String) (h : plainField f) :
    encodeField f = f.data := by
  unfold encodeField
  rw [h]
  rfl

/-- A plain record is the comma-join of its fields. -/
theorem encodeRecord_plain (r : List String)
    (h : ∀ f ∈ r, plainField f) :
    encodeRecord r = List.intercalate [','] (r.map String.data) := by
  unfold encodeRecord
  congr 1
  exact List.map_congr_left (fun f hf => encodeField_plain f (h f hf))

/-- The comma-join of plain fields contains no line break and no carriage
return. -/
theorem encodeRecord_plain_no_nl (r : List String)
    (h : ∀ f ∈ r, plainField f) :
    ∀ c ∈ encodeRecord r, ¬(c = '\n' ∨ c = '\r') := by
  rw [encodeRecord_plain r h]
  induction r with
  | nil => intro c hc; simp [List.intercalate] at hc
  | cons f rest ih =>
    intro c hc hor
    cases rest with
    | nil =>
      simp only [List.map_cons, List.map_nil, List.intercalate,
        List.intersperse_single, List.flatten_cons, List.flatten_nil,
        List.append_nil] at hc
      exact plainField_no_special f (h f (by simp)) c hc (by tauto)
    | cons f2 rest2 =>
      rw [List.map_cons, List.map_cons, List.intercalate,
        List.intersperse_cons_cons, List.flatten_cons, List.flatten_cons] at hc
      rcases List.mem_append.mp hc with hc1 | hc2
      · exact plainField_no_special f (h f (by simp)) c hc1 (by tauto)
      · rcases List.mem_append.mp hc2 with hc3 | hc4
        · simp only [List.mem_singleton] at hc3
          subst hc3
          rcases hor with h' | h' <;> exact absurd h' (by decide)
        · have := ih (fun g hg => h g (by simp [hg])) c
          rw [List.intercalate, List.map_cons] at this
          exact this hc4 hor

/-- Splitting recovers a leading separator-free line. -/
theorem splitOnChar_append (sep : Char) :
    ∀ (l cs : List Char), sep ∉ l →
      splitOnChar sep (l ++ sep :: cs) = l :: splitOnChar sep cs := by
  intro l
  induction l with
  | nil =>
    intro cs _
    simp [splitOnChar]
  | cons c l ih =>
    intro cs hna
    have hc : ¬ c = sep := fun h => hna (by simp [h])
    rw [List.cons_append]
    simp only [splitOnChar]
    rw [ih cs (fun h => hna (by simp [h])), if_neg hc]

/-- Splitting a stream of newline-terminated newline-free lines recovers
the lines, plus one trailing empty piece. -/
theorem splitOnChar_joined :
    ∀ ls : List (List Char), (∀ l ∈ ls, '\n' ∉ l) →
      splitOnChar '\n' ((ls.map (· ++ ['\n'])).flatten) = ls ++ [[]] := by
  intro ls
  induction ls with
  | nil => intro _; simp [splitOnChar]
  | cons l ls ih =>
    intro h
    rw [List.map_cons, List.flatten_cons]
    have harr : (l ++ ['\n']) ++ (ls.map (· ++ ['\n'])).flatten =
        l ++ '\n' :: (ls.map (· ++ ['\n'])).flatten := by
      simp
    rw [harr, splitOnChar_append '\n' l _ (h l (by simp)),
      ih (fun x hx => h x (by simp [hx]))]
    rfl

/-- `stripCR` is the identity on carriage-return-free lines. -/
theorem stripCR_no_cr (l : List Char) (h : '\r' ∉ l) : stripCR l = l := by
  unfold stripCR
  split
  · next heq => exact absurd (List.mem_of_mem_getLast? heq) h
  · rfl

/-- A non-empty plain record encodes to a non-empty line. -/
theorem encodeRecord_plain_ne_nil (r : List String)
    (h : ∀ f ∈ r, plainField f) (h0 : r ≠ []) (h1 : r ≠ [""]) :
    encodeRecord r ≠ [] := by
  rw [encodeRecord_plain r h]
  cases r with
  | nil => exact absurd rfl h0
  | cons f rest =>
    cases rest with
    | nil =>
      simp only [List.map_cons, List.map_nil, List.intercalate,
        List.intersperse_single, List.flatten_cons, List.flatten_nil,
        List.append_nil]
      intro hd
      apply h1
      have : f = "" := by
        cases f with
        | mk data => cases hd; rfl
      rw [this]
    | cons f2 rest2 =>
      rw [List.map_cons, List.map_cons, List.intercalate,
        List.intersperse_cons_cons, List.flatten_cons]
      simp

/-- Scanning a comma-free, quote-free run in unquoted mode to the end of
the line closes the final field. -/
theorem parseLineAux_unquoted_nil :
    ∀ (cs acc : List Char) (fields : List String),
      (∀ c ∈ cs, ¬(c = ',' ∨ c = '"')) →
      parseLineAux cs .unquoted acc fields = .ok (fields ++ [⟨acc ++ cs⟩]) := by
  intro cs
  induction cs with
  | nil =>
    intro acc fields _
    simp [parseLineAux]
  | cons c cs ih =>
    intro acc fields h
    have hc := h c (by simp)
    simp only [parseLineAux]
    rw [if_neg (fun hx => hc (Or.inl hx)), if_neg (fun hx => hc (Or.inr hx)),
      ih (acc ++ [c]) fields (fun x hx => h x (by simp [hx])),
      show acc ++ [c] ++ cs = acc ++ c :: cs by simp]

/-- Scanning a comma-free, quote-free run in unquoted mode up to a comma
closes the field and restarts at the next one. -/
theorem parseLineAux_unquoted_comma :
    ∀ (cs rest acc : List Char) (fields : List String),
      (∀ c ∈ cs, ¬(c = ',' ∨ c = '"')) →
      parseLineAux (cs ++ ',' :: rest) .unquoted acc fields =
        parseLineAux rest .startField [] (fields ++ [⟨acc ++ cs⟩]) := by
  intro cs
  induction cs with
  | nil =>
    intro rest acc fields _
    rw [List.nil_append]
    simp [parseLineAux]
  | cons c cs ih =>
    intro rest acc fields h
    have hc := h c (by simp)
    rw [List.cons_append]
    simp only [parseLineAux]
    rw [if_neg (fun hx => hc (Or.inl hx)), if_neg (fun hx => hc (Or.inr hx)),
      ih rest (acc ++ [c]) fields (fun x hx => h x (by simp [hx])),
      show acc ++ [c] ++ cs = acc ++ c :: cs by simp]

/-- Scanning one plain field that ends the line. -/
theorem parseLineAux_field_nil (f : String) (fields : List String)
    (h : plainField f) :
    parseLineAux f.data .startField [] fields = .ok (fields ++ [f]) := by
  have hps := plainField_no_special f h
  cases hfd : f.data with
  | nil =>
    have hf : f = "" := by cases f; cases hfd; rfl
    rw [hf]
    rfl
  | cons c cs =>
    have hc := hps c (by rw [hfd]; simp)
    simp only [parseLineAux]
    rw [if_neg (fun hx => hc (Or.inr (Or.inl hx))),
      if_neg (fun hx => hc (Or.inl hx)),
      parseLineAux_unquoted_nil cs ([] ++ [c]) fields
        (fun x hx hor => hps x (by rw [hfd]; simp [hx]) (by tauto)),
      show ([] ++ [c]) ++ cs = f.data by rw [hfd]; simp]

/-- Scanning one plain field up to a comma. -/
theorem parseLineAux_field_comma (f : String) (rest : List Char)
    (fields : List String) (h : plainField f) :
    parseLineAux (f.data ++ ',' :: rest) .startField [] fields =
      parseLineAux rest .startField [] (fields ++ [f]) := by
  have hps := plainField_no_special f h
  cases hfd : f.data with
  | nil =>
    have hf : f = "" := by cases f; cases hfd; rfl
    rw [hf]
    simp [parseLineAux]
  | cons c cs =>
    have hc := hps c (by rw [hfd]; simp)
    rw [List.cons_append]
    simp only [parseLineAux]
    rw [if_neg (fun hx => hc (Or.inr (Or.inl hx))),
      if_neg (fun hx => hc (Or.inl hx)),
      parseLineAux_unquoted_comma cs rest ([] ++ [c]) fields
        (fun x hx hor => hps x (by rw [hfd]; simp [hx]) (by tauto)),
      show ([] ++ [c]) ++ cs = f.data by rw [hfd]; simp]

/-- Scanning a whole plain record recovers its fields. -/
theorem parseLineAux_plain_record :
    ∀ (r : List String) (fields : List String),
      (∀ f ∈ r, plainField f) → r ≠ [] →
      parseLineAux (List.intercalate [','] (r.map String.data)) .startField
        [] fields = .ok (fields ++ r) := by
  intro r
  induction r with
  | nil => intro fields _ h0; exact absurd rfl h0
  | cons f rest ih =>
    intro fields h _
    cases rest with
    | nil =>
      simp only [List.map_cons, List.map_nil, List.intercalate,
        List.intersperse_single, List.flatten_cons, List.flatten_nil,
        List.append_nil]
      exact parseLineAux_field_nil f fields (h f (by simp))
    | cons f2 rest2 =>
      have hsplit : List.intercalate [','] ((f :: f2 :: rest2).map
          String.data) = f.data ++ ',' ::
            List.intercalate [','] ((f2 :: rest2).map String.data) := by
        simp only [List.map_cons, List.intercalate,
          List.intersperse_cons_cons, List.flatten_cons]
        simp
      rw [hsplit, parseLineAux_field_comma f _ fields (h f (by simp)),
        ih (fields ++ [f]) (fun g hg => h g (by simp [hg])) (by simp)]
      simp

/-- Parsing inverts the encoding of a non-empty plain record. -/
theorem parseLine_encodeRecord (r : List String)
    (h : ∀ f ∈ r, plainField f) (h0 : r ≠ []) :
    parseLine (encodeRecord r) = .ok r := by
  rw [parseLine, encodeRecord_plain r h,
    parseLineAux_plain_record r [] h h0, List.nil_append]

/-- Parsing inverts the encoding of a stream of non-empty plain records. -/
theorem parseRecords_encode (rs : List (List String))
    (h : ∀ r ∈ rs, (∀ f ∈ r, plainField f) ∧ r ≠ []) :
    parseRecords (rs.map encodeRecord) = .ok rs := by
  induction rs with
  | nil => rfl
  | cons r rest ih =>
    rw [List.map_cons]
    simp only [parseRecords]
    rw [parseLine_encodeRecord r (h r (by simp)).1 (h r (by simp)).2,
      ih (fun x hx => h x (by simp [hx]))]

/-- Normalizing a record of the declared width is a no-op. -/
theorem padTrunc_eq_self (r : List String) (n : Nat) (h : r.length = n) :
    padTrunc r n = r := by
  unfold padTrunc
  rw [← h, List.take_length]
  simp

/-- C7 counterexample: loading a three-row file gives `nextID = 4`;
deleting rowid 1 keeps `nextID = 4` over two rows; reconnecting to the
flushed file recomputes `nextID` as rowcount+1 = 3, not the 4 present at
the last flush — the rowid consumed by the deleted row becomes available
again. -/
theorem connect_after_flush_resets_nextID :
    loadCSVContent ("c\na\nb\nc\n").data true =
      .ok { cols := ["c"], rows := [["a"], ["b"], ["c"]], nextID := 4,
            header := true } ∧
    csvDelete { cols := ["c"], rows := [["a"], ["b"], ["c"]], nextID := 4,
                header := true } 1 =
      .ok { cols := ["c"], rows := [["b"], ["c"]], nextID := 4,
            header := true } ∧
    loadCSVContent (flushContent
        { cols := ["c"], rows := [["b"], ["c"]], nextID := 4,
          header := true }) true =
      .ok { cols := ["c"], rows := [["b"], ["c"]], nextID := 3,
            header := true } ∧
    (3 : Int) ≠ 4 := by
  refine ⟨rfl, rfl, rfl, by decide⟩

/-- C7 (amended): reconnecting to a flushed CSV table whose header and
rows consist of plain fields (none requiring quoting) and whose records
are non-empty lines reproduces the column set and the row set exactly,
but recomputes the next-rowid counter as the number of rows plus one
instead of preserving the counter that was live at the last flush — so
rowids consumed by deleted rows become available for reuse. -/
theorem connect_after_flush_reproduces_plain_rows (t : CsvTable)
    (hh : t.header = true)
    (hc0 : t.cols ≠ []) (hc1 : t.cols ≠ [""])
    (hcp : ∀ f ∈ t.cols, plainField f)
    (hrl : ∀ r ∈ t.rows, r.length = t.cols.length)
    (hrp : ∀ r ∈ t.rows, ∀ f ∈ r, plainField f)
    (hr1 : ∀ r ∈ t.rows, r ≠ [""]) :
    loadCSVContent (flushContent t) true =
      .ok { t with nextID := (t.rows.length : Int) + 1 } := by
  have hrne : ∀ r ∈ t.rows, r ≠ [] := by
    intro r hr hnil
    have := hrl r hr
    rw [hnil] at this
    exact hc0 (List.eq_nil_of_length_eq_zero this.symm)
  have hlines : flushContent t =
      (((t.cols :: t.rows).map encodeRecord).map (· ++ ['\n'])).flatten := by
    simp only [flushContent, hh, if_pos, List.map_cons, List.flatten_cons,
      List.map_map]
    rfl
  have hplainrec : ∀ r ∈ t.cols :: t.rows, ∀ f ∈ r, plainField f := by
    intro r hr
    rcases List.mem_cons.mp hr with rfl | hr2
    · exact hcp
    · exact hrp r hr2
  have hnonl : ∀ l ∈ (t.cols :: t.rows).map encodeRecord, '\n' ∉ l := by
    intro l hl hmem
    obtain ⟨r, hr, rfl⟩ := List.mem_map.mp hl
    exact encodeRecord_plain_no_nl r (hplainrec r hr) '\n' hmem (Or.inl rfl)
  have hnocr : ∀ l ∈ (t.cols :: t.rows).map encodeRecord, '\r' ∉ l := by
    intro l hl hmem
    obtain ⟨r, hr, rfl⟩ := List.mem_map.mp hl
    exact encodeRecord_plain_no_nl r (hplainrec r hr) '\r' hmem (Or.inr rfl)
  have hnenil : ∀ l ∈ (t.cols :: t.rows).map encodeRecord, l ≠ [] := by
    intro l hl
    obtain ⟨r, hr, rfl⟩ := List.mem_map.mp hl
    rcases List.mem_cons.mp hr with rfl | hr2
    · exact encodeRecord_plain_ne_nil _ hcp hc0 hc1
    · exact encodeRecord_plain_ne_nil r (hrp r hr2) (hrne r hr2) (hr1 r hr2)
  have hsplit : splitOnChar '\n' (flushContent t) =
      (t.cols :: t.rows).map encodeRecord ++ [[]] := by
    rw [hlines]
    exact splitOnChar_joined _ hnonl
  have hstrip : (splitOnChar '\n' (flushContent t)).map stripCR =
      (t.cols :: t.rows).map encodeRecord ++ [[]] := by
    rw [hsplit, List.map_append,
      List.map_congr_left (fun l hl => stripCR_no_cr l (hnocr l hl)),
      List.map_id']
    rfl
  have hfilter : (((splitOnChar '\n' (flushContent t)).map stripCR).filter
      (· ≠ [])) = (t.cols :: t.rows).map encodeRecord := by
    rw [hstrip, List.filter_append]
    have h1 : ((t.cols :: t.rows).map encodeRecord).filter (· ≠ []) =
        (t.cols :: t.rows).map encodeRecord := by
      rw [List.filter_eq_self]
      intro l hl
      exact decide_eq_true (hnenil l hl)
    rw [h1]
    simp
  have hparse : csvParseRecords (flushContent t) = .ok (t.cols :: t.rows) := by
    rw [csvParseRecords, hfilter]
    refine parseRecords_encode _ ?_
    intro r hr
    rcases List.mem_cons.mp hr with rfl | hr2
    · exact ⟨hcp, hc0⟩
    · exact ⟨hrp r hr2, hrne r hr2⟩
  have hrows2 : t.rows.map (fun r => padTrunc r t.cols.length) = t.rows := by
    rw [List.map_congr_left (fun r hr => padTrunc_eq_self r _ (hrl r hr)),
      List.map_id']
  have hload : loadCSVContent (flushContent t) true =
      .ok { cols := t.cols,
            rows := t.rows.map (fun r => padTrunc r t.cols.length),
            nextID := ((t.rows.map (fun r =>
              padTrunc r t.cols.length)).length : Int) + 1,
            header := true } := by
    rw [loadCSVContent, hparse]
    rfl
  rw [hload, hrows2, hh]

/-- C7 witness: reconnecting to the flushed two-row table of the
counterexample reproduces its rows but restarts the counter at 3. -/
theorem connect_after_flush_reproduces_plain_rows_witness :
    loadCSVContent (flushContent
        { cols := ["c"], rows := [["b"], ["c"]], nextID := 4,
          header := true }) true =
      .ok { cols := ["c"], rows := [["b"], ["c"]], nextID := 3,
            header := true } :=
  connect_after_flush_reproduces_plain_rows
    { cols := ["c"], rows := [["b"], ["c"]], nextID := 4, header := true }
    rfl (by decide) (by decide) (by decide) (by decide) (by decide)
    (by decide)
